import Mathlib

/-!
Verification of the `pyams_elastic` Elasticsearch client
(`src/pyams_elastic/client.py`) against its natural-language specification.

The client and the engine are shallowly embedded: JSON-like documents are
association lists, the engine is a small explicit state (index existence,
mappings, document store), and every engine call issued by a client method is
recorded in a trace so that frame properties ("no call reaches the engine")
and call-counting properties ("zero create calls") can be stated exactly.

The transactional machinery (`TransactionClient` / `transactional` from
`pyams_utils.transaction`) is not part of this repository's sources; it is
modelled from the specification's transactional contract (registration with
the active unit of work, replay in registration order on commit, discard on
abort).
-/

/-- JSON-like values: the document bodies, settings and mapping values
exchanged with the engine.  Arrays and objects are built with cons-style
constructors (rather than `List` arguments) so that decidable equality is
derivable; `JSON.array` and `JSON.object` below give list-style notation. -/
inductive JSON where
  | str : String → JSON
  | num : Int → JSON
  | bool : Bool → JSON
  | arrNil : JSON
  | arrCons : JSON → JSON → JSON
  | objNil : JSON
  | objCons : String → JSON → JSON → JSON
  deriving DecidableEq, Repr

/-- A JSON array from a list of elements. -/
def JSON.array : List JSON → JSON
  | [] => .arrNil
  | x :: xs => .arrCons x (JSON.array xs)

/-- A JSON object from a list of key/value entries. -/
def JSON.object : List (String × JSON) → JSON
  | [] => .objNil
  | (k, v) :: xs => .objCons k v (JSON.object xs)

/-- Python truthiness of a JSON value (empty strings, zero, `False` and
empty containers are falsy). -/
def jsonTruthy : JSON → Bool
  | .str s => !s.isEmpty
  | .num n => decide (n ≠ 0)
  | .bool b => b
  | .arrNil => false
  | .arrCons _ _ => true
  | .objNil => false
  | .objCons _ _ _ => true

/-- A document body: a Python dict from string keys to JSON values,
represented as an association list in insertion order. -/
abbrev Doc := List (String × JSON)

/-- A mapping document (field name → field-type descriptor). -/
abbrev Mapping := List (String × JSON)

/-- Model of `d.get(k)` on a Python dict: value of the first entry with key `k`. -/
def alGet [DecidableEq α] : List (α × β) → α → Option β
  | [], _ => none
  | p :: d, k => if p.1 = k then some p.2 else alGet d k

/-- Model of `d[k] = v` on a Python dict: overwrite the first entry with key `k` in
place if present, append the entry otherwise. -/
def alSet [DecidableEq α] : List (α × β) → α → β → List (α × β)
  | [], k, v => [(k, v)]
  | p :: d, k, v => if p.1 = k then (k, v) :: d else p :: alSet d k v

/-- Model of `d.pop(k)` / `del d[k]`: drop the entry with key `k`. -/
def alRemove [DecidableEq α] : List (α × β) → α → List (α × β)
  | [], _ => []
  | p :: d, k => if p.1 = k then alRemove d k else p :: alRemove d k

/-- Model of `d.update(e)` on Python dicts: write every entry of `e` into `d`,
left to right. -/
def alUpdate [DecidableEq α] (d e : List (α × β)) : List (α × β) :=
  e.foldl (fun acc p => alSet acc p.1 p.2) d

/-- The value that key `k` ends up with after the entries of `d` are written
one by one into a dict: the value of the last entry of `d` with key `k`. -/
def alGetLast [DecidableEq α] : List (α × β) → α → Option β
  | [], _ => none
  | p :: d, k =>
      match alGetLast d k with
      | some v => some v
      | none => if p.1 = k then some p.2 else none

/-! ## The engine model

The Elasticsearch server, as seen through the calls the client issues
(`indices.exists/create/delete/get_mapping/put_mapping`, `index`, `delete`,
`get`).  The state tracks the client's target index: whether it exists, its
current mappings, and its document store.  Every call issued by a client
method is also recorded in a trace. -/

/-- Errors surfaced by the engine or by Python evaluation:
`NotFoundError` from the engine, `KeyError` from `doc.pop("_id")`. -/
inductive ESError where
  | notFound : ESError
  | keyError : ESError
  deriving DecidableEq, Repr

/-- One call received by the engine, with the arguments transmitted. -/
inductive ESCall where
  | indicesExists : String → ESCall
  | indicesCreate : String → JSON → ESCall
  | indicesDelete : String → ESCall
  | indicesGetMapping : String → ESCall
  | indicesPutMapping : String → Mapping → ESCall
  | indexDoc : String → JSON → Doc → Option JSON → ESCall
  | deleteDoc : String → JSON → ESCall
  | getDoc : String → JSON → ESCall
  | indicesFlush : String → Bool → ESCall
  | indicesRefresh : String → ESCall
  deriving DecidableEq, Repr

/-- Engine-side state of the client's target index. -/
structure ESState where
  indexExists : Bool
  mappings : Mapping
  docs : List (JSON × Doc)
  deriving DecidableEq, Repr

/-- A connection handle (`Elasticsearch` instance); we track only whether it
has been closed. -/
structure EsConn where
  closed : Bool
  deriving DecidableEq, Repr

/-! ## Settings constants (`ANALYZER_SETTINGS`, `CREATE_INDEX_SETTINGS`) -/

/-- Model of `ANALYZER_SETTINGS` from `client.py`. -/
def ANALYZER_SETTINGS : JSON :=
  JSON.object [
    ("analysis", JSON.object [
      ("filter", JSON.object [
        ("snowball", JSON.object [
          ("type", JSON.str "snowball"),
          ("language", JSON.str "English")])]),
      ("analyzer", JSON.object [
        ("lowercase", JSON.object [
          ("type", JSON.str "custom"),
          ("tokenizer", JSON.str "standard"),
          ("filter", JSON.array [JSON.str "lowercase"])]),
        ("email", JSON.object [
          ("type", JSON.str "custom"),
          ("tokenizer", JSON.str "uax_url_email"),
          ("filter", JSON.array [JSON.str "lowercase"])]),
        ("content", JSON.object [
          ("type", JSON.str "custom"),
          ("tokenizer", JSON.str "standard"),
          ("char_filter", JSON.array [JSON.str "html_strip"]),
          ("filter", JSON.array [JSON.str "lowercase", JSON.str "stop",
                                 JSON.str "snowball"])])])])]

/-- Model of `CREATE_INDEX_SETTINGS` from `client.py`: a copy of `ANALYZER_SETTINGS`
updated with the default shard/replica configuration. -/
def CREATE_INDEX_SETTINGS : JSON :=
  JSON.object [
    ("analysis", JSON.object [
      ("filter", JSON.object [
        ("snowball", JSON.object [
          ("type", JSON.str "snowball"),
          ("language", JSON.str "English")])]),
      ("analyzer", JSON.object [
        ("lowercase", JSON.object [
          ("type", JSON.str "custom"),
          ("tokenizer", JSON.str "standard"),
          ("filter", JSON.array [JSON.str "lowercase"])]),
        ("email", JSON.object [
          ("type", JSON.str "custom"),
          ("tokenizer", JSON.str "uax_url_email"),
          ("filter", JSON.array [JSON.str "lowercase"])]),
        ("content", JSON.object [
          ("type", JSON.str "custom"),
          ("tokenizer", JSON.str "standard"),
          ("char_filter", JSON.array [JSON.str "html_strip"]),
          ("filter", JSON.array [JSON.str "lowercase", JSON.str "stop",
                                 JSON.str "snowball"])])])]),
    ("index", JSON.object [
      ("number_of_shards", JSON.num 2),
      ("number_of_replicas", JSON.num 0)])]

/-- Python `settings or CREATE_INDEX_SETTINGS`: the default is used when the
argument is `None` or falsy. -/
def settingsOrDefault : Option JSON → JSON
  | none => CREATE_INDEX_SETTINGS
  | some j => if jsonTruthy j then j else CREATE_INDEX_SETTINGS

/-! ## The client and its transaction machinery -/

/-- Model of `ElasticClient` state relevant to the verified operations: the target
index name, the `disable_indexing` flag, the `use_transaction` flag, and the
connection handle `es`. -/
structure ElasticClient where
  index : String
  disable_indexing : Bool
  use_transaction : Bool
  es : EsConn
  deriving DecidableEq, Repr

/-- Modelled from the spec: a deferred mutation, "a queued (operationKind,
documentId, body) tuple associated with the active unit of work", where
operationKind is index or delete. -/
inductive Op where
  | opIndex : JSON → Doc → Op
  | opDelete : JSON → Bool → Op
  deriving DecidableEq, Repr

/-- Modelled from the spec: the active unit of work, holding the deferred
operations in registration order (`pyams_utils.transaction` is external to
this repository). -/
structure Txn where
  queue : List Op
  deriving DecidableEq, Repr

/-- Modelled from the spec: registering an operation with the active unit of
work appends it to the queue. -/
def Txn.register (t : Txn) (op : Op) : Txn :=
  { queue := t.queue ++ [op] }

/-! ## Client operations

Each method returns its result together with the new engine state and the
trace of engine calls it issued, in order.  Methods that can raise return an
`Except ESError` result; an error leaves the engine state as it was at the
point of failure. -/

/-- Model of `ElasticClient.close`: `self.es.close()`. -/
def ElasticClient.close (c : ElasticClient) : ElasticClient :=
  { c with es := { closed := true } }

/-- Model of `ElasticClient.__enter__`: returns the underlying `es` handle. -/
def ElasticClient.enter (c : ElasticClient) : EsConn :=
  c.es

/-- Model of `ElasticClient.__exit__`: closes the `es` handle, ignoring any exception
information passed in. -/
def ElasticClient.exit (c : ElasticClient) (excInfo : Option ESError) :
    ElasticClient :=
  let _ := excInfo
  { c with es := { closed := true } }

/-- Python `with client: body` semantics over the model: `__enter__` yields
the handle, the body runs, `__exit__` runs on every exit path, and since
`__exit__` returns `None` an exception from the body propagates. -/
def withClient (c : ElasticClient) (body : EsConn → Except ESError α) :
    Except ESError α × ElasticClient :=
  let h := c.enter
  let r := body h
  match r with
  | Except.ok a => (Except.ok a, c.exit none)
  | Except.error e => (Except.error e, c.exit (some e))

/-- Model of `ElasticClient.ensure_index(recreate, settings)`. -/
def ElasticClient.ensure_index (c : ElasticClient) (recreate : Bool)
    (settings : Option JSON) (s : ESState) : ESState × List ESCall :=
  let ex := s.indexExists
  if recreate || !ex then
    let (s1, tr1) :=
      if ex then
        ({ s with indexExists := false, mappings := [], docs := [] },
         [ESCall.indicesDelete c.index])
      else (s, [])
    ({ s1 with indexExists := true, mappings := [], docs := [] },
     [ESCall.indicesExists c.index] ++ tr1 ++
       [ESCall.indicesCreate c.index
         (JSON.object [("settings", settingsOrDefault settings)])])
  else
    (s, [ESCall.indicesExists c.index])

/-- Model of `ElasticClient.delete_index`: unconditionally issues the delete; the
engine raises `NotFoundError` when the index is absent, and that error is
not caught. -/
def ElasticClient.delete_index (c : ElasticClient) (s : ESState) :
    Except ESError Unit × ESState × List ESCall :=
  if s.indexExists then
    (Except.ok (),
     { s with indexExists := false, mappings := [], docs := [] },
     [ESCall.indicesDelete c.index])
  else
    (Except.error ESError.notFound, s, [ESCall.indicesDelete c.index])

/-- Model of `ElasticClient.get_mappings`: reads the current mappings from the
engine. -/
def ElasticClient.get_mappings (c : ElasticClient) (s : ESState) :
    Mapping × ESState × List ESCall :=
  (s.mappings, s, [ESCall.indicesGetMapping c.index])

/-- An indexable class as the client sees it: whether it provides
`IElasticMapping`, its `elastic_mapping()` result, and the
`IElasticMappingExtension` adapters registered for it, in registration
order. -/
structure ElasticClass where
  indexable : Bool
  mapping : Mapping
  extensions : List Mapping
  deriving DecidableEq, Repr

/-- Model of `ElasticClient.ensure_mapping(cls, recreate)`: puts the class mapping
only when the index has no mapping yet or `recreate` is set. -/
def ElasticClient.ensure_mapping (c : ElasticClient) (cls : ElasticClass)
    (recreate : Bool) (s : ESState) : ESState × List ESCall :=
  let doc_mapping := cls.mapping
  let mappings := s.mappings
  if mappings.isEmpty || recreate then
    ({ s with mappings := alUpdate s.mappings doc_mapping },
     [ESCall.indicesGetMapping c.index,
      ESCall.indicesPutMapping c.index doc_mapping])
  else
    (s, [ESCall.indicesGetMapping c.index])

/-- The merged mapping document built by `ensure_all_mappings`: for each
registry entry that provides `IElasticMapping` and has a non-empty class
mapping, the class mapping is updated with each registered extension in
order, then merged into the accumulated document. -/
def merged_mapping (registry : List ElasticClass) : Mapping :=
  registry.foldl
    (fun acc cls =>
      if !cls.indexable then acc
      else
        let cls_mapping := cls.mapping
        if cls_mapping.isEmpty then acc
        else alUpdate acc (cls.extensions.foldl alUpdate cls_mapping))
    []

/-- Model of `ElasticClient.ensure_all_mappings(base_class, recreate)`: when the index
has no mapping yet (or `recreate` is set), merges every indexable class's
mapping with its extensions and puts the result. -/
def ElasticClient.ensure_all_mappings (c : ElasticClient)
    (registry : List ElasticClass) (recreate : Bool) (s : ESState) :
    ESState × List ESCall :=
  let doc_mapping := s.mappings
  if doc_mapping.isEmpty || recreate then
    let body := merged_mapping registry
    ({ s with mappings := alUpdate s.mappings body },
     [ESCall.indicesGetMapping c.index,
      ESCall.indicesPutMapping c.index body])
  else
    (s, [ESCall.indicesGetMapping c.index])

/-- The body of `index_document` as it physically executes against the
engine: no-op under `disable_indexing`; otherwise pops the `__pipeline__`
marker from the document (routing through that pipeline) and transmits the
remaining body. -/
def ElasticClient.index_document_apply (c : ElasticClient) (id : JSON)
    (doc : Doc) (s : ESState) : Except ESError Unit × ESState × List ESCall :=
  if c.disable_indexing then
    (Except.ok (), s, [])
  else
    match alGet doc "__pipeline__" with
    | some p =>
        let body := alRemove doc "__pipeline__"
        (Except.ok (), { s with docs := alSet s.docs id body },
         [ESCall.indexDoc c.index id body (some p)])
    | none =>
        (Except.ok (), { s with docs := alSet s.docs id doc },
         [ESCall.indexDoc c.index id doc none])

/-- The body of `delete_document` as it physically executes against the
engine: no-op under `disable_indexing`; otherwise issues the delete, and a
`NotFoundError` from the engine is swallowed exactly when `safe` is set. -/
def ElasticClient.delete_document_apply (c : ElasticClient) (id : JSON)
    (safe : Bool) (s : ESState) : Except ESError Unit × ESState × List ESCall :=
  if c.disable_indexing then
    (Except.ok (), s, [])
  else
    match alGet s.docs id with
    | some _ =>
        (Except.ok (), { s with docs := alRemove s.docs id },
         [ESCall.deleteDoc c.index id])
    | none =>
        ((if safe then Except.ok () else Except.error ESError.notFound), s,
         [ESCall.deleteDoc c.index id])

/-- Modelled from the spec: applying one deferred operation runs the
corresponding method body. -/
def ElasticClient.applyOp (c : ElasticClient) :
    Op → ESState → Except ESError Unit × ESState × List ESCall
  | Op.opIndex id doc, s => c.index_document_apply id doc s
  | Op.opDelete id safe, s => c.delete_document_apply id safe s

/-- Modelled from the spec: on commit the unit of work applies the queued
operations in registration order, stopping at the first failure (which is
surfaced to the transaction boundary). -/
def ElasticClient.commitOps (c : ElasticClient) :
    List Op → ESState → Except ESError Unit × ESState × List ESCall
  | [], s => (Except.ok (), s, [])
  | op :: ops, s =>
      match c.applyOp op s with
      | (Except.ok _, s1, tr1) =>
          let (r, s2, tr2) := c.commitOps ops s1
          (r, s2, tr1 ++ tr2)
      | (Except.error e, s1, tr1) => (Except.error e, s1, tr1)

/-- Modelled from the spec: committing the active unit of work replays its
queue. -/
def ElasticClient.commit (c : ElasticClient) (t : Txn) (s : ESState) :
    Except ESError Unit × ESState × List ESCall :=
  c.commitOps t.queue s

/-- Modelled from the spec: aborting the unit of work discards the queued
operations; nothing reaches the engine. -/
def ElasticClient.abort (t : Txn) (s : ESState) : ESState × List ESCall :=
  let _ := t
  (s, [])

/-- Model of `ElasticClient.index_document(id, doc)` at the call site: under the
`transactional` decorator the call is registered with the active unit of
work when `use_transaction` is set, and executes immediately otherwise. -/
def ElasticClient.index_document (c : ElasticClient) (id : JSON) (doc : Doc)
    (t : Txn) (s : ESState) :
    Except ESError Unit × Txn × ESState × List ESCall :=
  if c.use_transaction then
    (Except.ok (), t.register (Op.opIndex id doc), s, [])
  else
    let (r, s1, tr) := c.index_document_apply id doc s
    (r, t, s1, tr)

/-- Model of `ElasticClient.delete_document(id, safe)` at the call site: deferred
through the unit of work when `use_transaction` is set, immediate
otherwise. -/
def ElasticClient.delete_document (c : ElasticClient) (id : JSON)
    (safe : Bool) (t : Txn) (s : ESState) :
    Except ESError Unit × Txn × ESState × List ESCall :=
  if c.use_transaction then
    (Except.ok (), t.register (Op.opDelete id safe), s, [])
  else
    let (r, s1, tr) := c.delete_document_apply id safe s
    (r, t, s1, tr)

/-- Model of `ElasticClient.index_object(obj)`: projects the object to its elastic
document (here: the document itself), pops the reserved `_id` key (a missing
`_id` is a Python `KeyError`) and forwards to `index_document`. -/
def ElasticClient.index_object (c : ElasticClient) (doc : Doc) (t : Txn)
    (s : ESState) : Except ESError Unit × Txn × ESState × List ESCall :=
  match alGet doc "_id" with
  | none => (Except.error ESError.keyError, t, s, [])
  | some doc_id => c.index_document doc_id (alRemove doc "_id") t s

/-- Model of `ElasticClient.index_objects(objects)`: indexes each object in turn;
sequential, a failure stops the iteration. -/
def ElasticClient.index_objects (c : ElasticClient) :
    List Doc → Txn → ESState → Except ESError Unit × Txn × ESState × List ESCall
  | [], t, s => (Except.ok (), t, s, [])
  | d :: ds, t, s =>
      match c.index_object d t s with
      | (Except.ok _, t1, s1, tr1) =>
          let (r, t2, s2, tr2) := c.index_objects ds t1 s1
          (r, t2, s2, tr1 ++ tr2)
      | (Except.error e, t1, s1, tr1) => (Except.error e, t1, s1, tr1)

/-- Model of `ElasticClient.delete_object(obj, safe)`: pops the reserved `_id` key
and forwards to `delete_document`. -/
def ElasticClient.delete_object (c : ElasticClient) (doc : Doc) (safe : Bool)
    (t : Txn) (s : ESState) :
    Except ESError Unit × Txn × ESState × List ESCall :=
  match alGet doc "_id" with
  | none => (Except.error ESError.keyError, t, s, [])
  | some doc_id => c.delete_document doc_id safe t s

/-- The argument of `ElasticClient.get`: either a domain object carrying an
`id` attribute, or a (document type, id) tuple. -/
inductive GetArg where
  | fromObj : JSON → GetArg
  | fromPair : JSON → JSON → GetArg
  deriving DecidableEq, Repr

/-- Model of `ElasticClient.get(obj)`: a read-only fetch of the stored source for the
resolved document id, always against the client's configured index (the
first component of a tuple argument is discarded). -/
def ElasticClient.get (c : ElasticClient) (arg : GetArg) (s : ESState) :
    Except ESError Doc × ESState × List ESCall :=
  let doc_id :=
    match arg with
    | GetArg.fromObj objId => objId
    | GetArg.fromPair _ id => id
  match alGet s.docs doc_id with
  | some source => (Except.ok source, s, [ESCall.getDoc c.index doc_id])
  | none => (Except.error ESError.notFound, s, [ESCall.getDoc c.index doc_id])

/-- Model of `ElasticClient.flush(force)`: immediate, never deferred. -/
def ElasticClient.flush (c : ElasticClient) (force : Bool) (s : ESState) :
    ESState × List ESCall :=
  (s, [ESCall.indicesFlush c.index force])

/-- Model of `ElasticClient.refresh`: immediate, never deferred. -/
def ElasticClient.refresh (c : ElasticClient) (s : ESState) :
    ESState × List ESCall :=
  (s, [ESCall.indicesRefresh c.index])

/-- The single class contribution inside the `ensure_all_mappings` loop: the
class mapping updated with every registered extension, or nothing when the
class is not indexable or its mapping is empty. -/
def clsContrib (cls : ElasticClass) : Mapping :=
  if cls.indexable && !cls.mapping.isEmpty then
    cls.extensions.foldl alUpdate cls.mapping
  else []

/-! ## Concrete fixtures used by the witness theorems -/

/-- A fresh, open connection handle. -/
def conn0 : EsConn := { closed := false }

/-- A transactional client over index `idx` with indexing enabled. -/
def cTX : ElasticClient :=
  { index := "idx", disable_indexing := false, use_transaction := true,
    es := conn0 }

/-- A non-transactional client over index `idx` with indexing enabled. -/
def cNT : ElasticClient :=
  { index := "idx", disable_indexing := false, use_transaction := false,
    es := conn0 }

/-- A non-transactional client with `disable_indexing` set. -/
def cDI : ElasticClient :=
  { index := "idx", disable_indexing := true, use_transaction := false,
    es := conn0 }

/-- Engine state in which the index does not exist. -/
def sAbsent : ESState := { indexExists := false, mappings := [], docs := [] }

/-- Engine state with an existing, empty index and no mapping. -/
def sFresh : ESState := { indexExists := true, mappings := [], docs := [] }

/-- Engine state whose index already has a mapping. -/
def sMapped : ESState :=
  { indexExists := true, mappings := [("title", JSON.str "text")], docs := [] }

/-- Engine state holding one stored document with id `"d1"`. -/
def sOneDoc : ESState :=
  { indexExists := true, mappings := [],
    docs := [(JSON.str "d1", [("title", JSON.str "a")])] }

/-- Fixture class A: indexable, sets the `status` field. -/
def clsA : ElasticClass :=
  { indexable := true,
    mapping := [("status", JSON.str "keyword"), ("title", JSON.str "text")],
    extensions := [] }

/-- Fixture class B: indexable, with one mapping extension that overrides
the `status` field. -/
def clsB : ElasticClass :=
  { indexable := true,
    mapping := [("body", JSON.str "text")],
    extensions := [[("status", JSON.str "text")]] }

/-- Fixture class C: indexable, does not touch `status`. -/
def clsC : ElasticClass :=
  { indexable := true,
    mapping := [("author", JSON.str "keyword")],
    extensions := [] }

/-- Fixture document id. -/
def id1 : JSON := JSON.str "d1"

/-- Fixture document body. -/
def doc1 : Doc := [("title", JSON.str "a")]

/-- Fixture object document carrying `_id` and a `__pipeline__` marker. -/
def docP : Doc :=
  [("_id", JSON.str "d9"), ("title", JSON.str "x"),
   ("__pipeline__", JSON.str "pl")]

/-- Fixture object document carrying `_id` and no pipeline marker. -/
def docNP : Doc := [("_id", JSON.str "d8"), ("title", JSON.str "y")]

/-- An empty unit of work. -/
def t0 : Txn := { queue := [] }

/-- Fixture queue: one index operation. -/
def q1fix : List Op := [Op.opIndex id1 doc1]

/-- Fixture queue: one safe delete operation. -/
def q2fix : List Op := [Op.opDelete id1 true]

/-- Engine state after committing `q1fix` against `sFresh`. -/
def s1fix : ESState :=
  { indexExists := true, mappings := [], docs := [(id1, doc1)] }

/-- Trace produced by committing `q1fix` against `sFresh`. -/
def tr1fix : List ESCall := [ESCall.indexDoc "idx" id1 doc1 none]

/-! ## Dictionary lemmas -/

theorem alGet_alSet_self [DecidableEq α] (d : List (α × β)) (k : α) (v : β) :
    alGet (alSet d k v) k = some v := by
  induction d with
  | nil => simp [alSet, alGet]
  | cons p d ih =>
    by_cases hp : p.1 = k
    · simp [alSet, hp, alGet]
    · simp [alSet, hp, alGet, ih]

theorem alGet_alSet_ne [DecidableEq α] (d : List (α × β)) (k q : α) (v : β)
    (hne : k ≠ q) : alGet (alSet d q v) k = alGet d k := by
  induction d with
  | nil => simp [alSet, alGet, hne.symm]
  | cons p d ih =>
    by_cases hp : p.1 = q
    · have hpk : p.1 ≠ k := by rw [hp]; exact hne.symm
      simp [alSet, hp, alGet, hpk, hne.symm]
    · by_cases hk : p.1 = k
      · simp [alSet, hp, alGet, hk, hne]
      · simp [alSet, hp, alGet, hk, ih]

theorem alGet_alRemove_self [DecidableEq α] (d : List (α × β)) (k : α) :
    alGet (alRemove d k) k = none := by
  induction d with
  | nil => simp [alRemove, alGet]
  | cons p d ih =>
    by_cases hp : p.1 = k
    · simp [alRemove, hp, ih]
    · simp [alRemove, hp, alGet, ih]

theorem alGet_alRemove_ne [DecidableEq α] (d : List (α × β)) (k q : α)
    (hne : k ≠ q) : alGet (alRemove d q) k = alGet d k := by
  induction d with
  | nil => simp [alRemove, alGet]
  | cons p d ih =>
    by_cases hp : p.1 = q
    · have hpk : p.1 ≠ k := by rw [hp]; exact hne.symm
      simp [alRemove, hp, alGet, hpk, hne.symm, ih]
    · by_cases hk : p.1 = k
      · simp [alRemove, hp, alGet, hk, hne]
      · simp [alRemove, hp, alGet, hk, ih]

theorem alGet_alUpdate [DecidableEq α] (e d : List (α × β)) (k : α) :
    alGet (alUpdate d e) k =
      match alGetLast e k with
      | some v => some v
      | none => alGet d k := by
  induction e generalizing d with
  | nil => simp [alUpdate, alGetLast]
  | cons p e ih =>
    have hstep : alUpdate d (p :: e) = alUpdate (alSet d p.1 p.2) e := rfl
    rw [hstep, ih]
    cases hl : alGetLast e k with
    | some v => simp [alGetLast, hl]
    | none =>
      by_cases hp : p.1 = k
      · subst hp
        simp [alGetLast, hl, alGet_alSet_self]
      · simp [alGetLast, hl, hp,
              alGet_alSet_ne d k p.1 p.2 (fun h => hp h.symm)]

theorem alUpdate_append [DecidableEq α] (d e1 e2 : List (α × β)) :
    alUpdate d (e1 ++ e2) = alUpdate (alUpdate d e1) e2 := by
  simp [alUpdate, List.foldl_append]

theorem merged_mapping_eq_foldl (registry : List ElasticClass) :
    merged_mapping registry =
      registry.foldl (fun acc cls => alUpdate acc (clsContrib cls)) [] := by
  unfold merged_mapping
  suffices h : ∀ acc : Mapping,
      registry.foldl
        (fun acc cls =>
          if !cls.indexable then acc
          else
            let cls_mapping := cls.mapping
            if cls_mapping.isEmpty then acc
            else alUpdate acc (cls.extensions.foldl alUpdate cls_mapping))
        acc
      = registry.foldl (fun acc cls => alUpdate acc (clsContrib cls)) acc by
    exact h []
  induction registry with
  | nil => intro acc; rfl
  | cons cls rest ih =>
    intro acc
    have hpt :
        (if !cls.indexable then acc
         else
           let cls_mapping := cls.mapping
           if cls_mapping.isEmpty then acc
           else alUpdate acc (cls.extensions.foldl alUpdate cls_mapping))
        = alUpdate acc (clsContrib cls) := by
      by_cases hi : cls.indexable
      · by_cases hm : cls.mapping.isEmpty
        · simp [hi, hm, clsContrib, alUpdate]
        · simp [hi, hm, clsContrib]
      · simp [hi, clsContrib, alUpdate]
    simp only [List.foldl_cons, hpt]
    exact ih _

/-! ## Claim theorems -/

/-- C10: used as a context manager, the client's `__enter__` returns the
underlying engine connection handle (the `es` field, not the client object),
the body's outcome — normal or exceptional — propagates unchanged, and
`__exit__` leaves the connection closed on every exit path. -/
theorem C10_context_manager (c : ElasticClient)
    (body : EsConn → Except ESError Doc) :
    c.enter = c.es ∧
    (∀ excInfo : Option ESError, ((c.exit excInfo).es.closed = true)) ∧
    (withClient c body).1 = body c.es ∧
    (withClient c body).2.es.closed = true := by
  refine ⟨rfl, fun excInfo => rfl, ?_, ?_⟩ <;>
    · unfold withClient ElasticClient.enter ElasticClient.exit
      cases hb : body c.es <;> simp [hb]

/-- C7: `delete_index` issues the engine delete unconditionally; when the
index is absent the engine's `NotFoundError` propagates unchanged to the
caller, and when it exists the index is deleted. -/
theorem C7_delete_index (c : ElasticClient) (sE sA : ESState)
    (hE : sE.indexExists = true) (hA : sA.indexExists = false) :
    c.delete_index sA =
      (Except.error ESError.notFound, sA, [ESCall.indicesDelete c.index]) ∧
    c.delete_index sE =
      (Except.ok (),
       { sE with indexExists := false, mappings := [], docs := [] },
       [ESCall.indicesDelete c.index]) ∧
    (c.delete_index sA).2.2 = [ESCall.indicesDelete c.index] ∧
    (c.delete_index sE).2.2 = [ESCall.indicesDelete c.index] := by
  unfold ElasticClient.delete_index
  simp [hE, hA]

/-- Witness for C7 at a concrete client and concrete states. -/
theorem C7_delete_index_witness :
    cNT.delete_index sAbsent =
      (Except.error ESError.notFound, sAbsent, [ESCall.indicesDelete "idx"]) ∧
    cNT.delete_index sFresh =
      (Except.ok (),
       { sFresh with indexExists := false, mappings := [], docs := [] },
       [ESCall.indicesDelete "idx"]) ∧
    (cNT.delete_index sAbsent).2.2 = [ESCall.indicesDelete "idx"] ∧
    (cNT.delete_index sFresh).2.2 = [ESCall.indicesDelete "idx"] :=
  C7_delete_index cNT sFresh sAbsent rfl rfl

/-- C4: `ensure_index(recreate=false)` is idempotent — on an existing index
it performs zero create and zero delete calls; on an absent index it creates
it with the caller-supplied settings when given (and truthy), and with the
documented default `CREATE_INDEX_SETTINGS` otherwise; a second run after
creation is a no-op. -/
theorem C4_ensure_index (c : ElasticClient) (sE sA : ESState)
    (settings : Option JSON) (j : JSON)
    (hE : sE.indexExists = true) (hA : sA.indexExists = false)
    (hj : jsonTruthy j = true) :
    c.ensure_index false settings sE = (sE, [ESCall.indicesExists c.index]) ∧
    c.ensure_index false (some j) sA =
      ({ sA with indexExists := true, mappings := [], docs := [] },
       [ESCall.indicesExists c.index,
        ESCall.indicesCreate c.index (JSON.object [("settings", j)])]) ∧
    c.ensure_index false none sA =
      ({ sA with indexExists := true, mappings := [], docs := [] },
       [ESCall.indicesExists c.index,
        ESCall.indicesCreate c.index
          (JSON.object [("settings", CREATE_INDEX_SETTINGS)])]) ∧
    c.ensure_index false settings (c.ensure_index false settings sA).1 =
      ((c.ensure_index false settings sA).1, [ESCall.indicesExists c.index]) := by
  refine ⟨?_, ?_, ?_, ?_⟩
  · unfold ElasticClient.ensure_index
    simp [hE]
  · unfold ElasticClient.ensure_index
    simp [hA, settingsOrDefault, hj]
  · unfold ElasticClient.ensure_index
    simp [hA, settingsOrDefault]
  · unfold ElasticClient.ensure_index
    simp [hA]

/-- Witness for C4 at a concrete client, states and settings document. -/
theorem C4_ensure_index_witness :
    cNT.ensure_index false (some (JSON.object [("k", JSON.str "v")])) sFresh
      = (sFresh, [ESCall.indicesExists "idx"]) ∧
    cNT.ensure_index false (some (JSON.object [("k", JSON.str "v")])) sAbsent =
      ({ sAbsent with indexExists := true, mappings := [], docs := [] },
       [ESCall.indicesExists "idx",
        ESCall.indicesCreate "idx"
          (JSON.object [("settings", JSON.object [("k", JSON.str "v")])])]) ∧
    cNT.ensure_index false none sAbsent =
      ({ sAbsent with indexExists := true, mappings := [], docs := [] },
       [ESCall.indicesExists "idx",
        ESCall.indicesCreate "idx"
          (JSON.object [("settings", CREATE_INDEX_SETTINGS)])]) ∧
    cNT.ensure_index false (some (JSON.object [("k", JSON.str "v")]))
        (cNT.ensure_index false (some (JSON.object [("k", JSON.str "v")])) sAbsent).1 =
      ((cNT.ensure_index false (some (JSON.object [("k", JSON.str "v")])) sAbsent).1,
       [ESCall.indicesExists "idx"]) :=
  C4_ensure_index cNT sFresh sAbsent (some (JSON.object [("k", JSON.str "v")]))
    (JSON.object [("k", JSON.str "v")]) rfl rfl rfl

/-- C3: deleting a document the engine reports as absent raises
`NotFoundError` iff `safe` is false — with `safe=true` the engine's error is
swallowed, with `safe=false` it propagates unchanged. -/
theorem C3_safe_delete (c : ElasticClient) (id : JSON) (safe : Bool)
    (t : Txn) (s : ESState)
    (hd : c.disable_indexing = false)
    (ht : c.use_transaction = false)
    (habs : alGet s.docs id = none) :
    c.delete_document_apply id safe s =
      ((if safe then Except.ok () else Except.error ESError.notFound), s,
       [ESCall.deleteDoc c.index id]) ∧
    ((c.delete_document_apply id safe s).1 = Except.error ESError.notFound
      ↔ safe = false) ∧
    c.delete_document id safe t s =
      ((if safe then Except.ok () else Except.error ESError.notFound), t, s,
       [ESCall.deleteDoc c.index id]) := by
  have h1 : c.delete_document_apply id safe s =
      ((if safe then Except.ok () else Except.error ESError.notFound), s,
       [ESCall.deleteDoc c.index id]) := by
    unfold ElasticClient.delete_document_apply
    simp [hd, habs]
  refine ⟨h1, ?_, ?_⟩
  · rw [h1]
    cases safe <;> simp
  · unfold ElasticClient.delete_document
    simp [ht, h1]

/-- Witness for C3: deleting an absent id with safe set to false raises
`NotFoundError`. -/
theorem C3_safe_delete_witness :
    cNT.delete_document_apply (JSON.str "nope") false sFresh =
      ((if false then Except.ok () else Except.error ESError.notFound), sFresh,
       [ESCall.deleteDoc "idx" (JSON.str "nope")]) ∧
    ((cNT.delete_document_apply (JSON.str "nope") false sFresh).1
        = Except.error ESError.notFound ↔ false = false) ∧
    cNT.delete_document (JSON.str "nope") false t0 sFresh =
      ((if false then Except.ok () else Except.error ESError.notFound), t0,
       sFresh, [ESCall.deleteDoc "idx" (JSON.str "nope")]) :=
  C3_safe_delete cNT (JSON.str "nope") false t0 sFresh rfl rfl rfl

theorem index_object_disabled (c : ElasticClient)
    (hd : c.disable_indexing = true) (d : Doc) (t : Txn) (s : ESState) :
    ∃ r t2, c.index_object d t s = (r, t2, s, []) := by
  unfold ElasticClient.index_object
  cases hg : alGet d "_id" with
  | none => exact ⟨Except.error ESError.keyError, t, rfl⟩
  | some did =>
    unfold ElasticClient.index_document
    by_cases hu : c.use_transaction
    · exact ⟨Except.ok (), t.register (Op.opIndex did (alRemove d "_id")),
        by simp [hu]⟩
    · refine ⟨Except.ok (), t, ?_⟩
      simp [hu, ElasticClient.index_document_apply, hd]

theorem index_objects_disabled (c : ElasticClient)
    (hd : c.disable_indexing = true) (s : ESState) :
    ∀ (objs : List Doc) (t : Txn),
      (c.index_objects objs t s).2.2.1 = s ∧
      (c.index_objects objs t s).2.2.2 = [] := by
  intro objs
  induction objs with
  | nil => intro t; exact ⟨rfl, rfl⟩
  | cons d ds ih =>
    intro t
    obtain ⟨r, t2, heq⟩ := index_object_disabled c hd d t s
    cases r with
    | ok u =>
      have h1 := (ih t2).1
      have h2 := (ih t2).2
      simp [ElasticClient.index_objects, heq, h1, h2]
    | error e =>
      simp [ElasticClient.index_objects, heq]

theorem commitOps_disabled (c : ElasticClient)
    (hd : c.disable_indexing = true) :
    ∀ (q : List Op) (s : ESState), c.commitOps q s = (Except.ok (), s, []) := by
  intro q
  induction q with
  | nil => intro s; rfl
  | cons op ops ih =>
    intro s
    have happ : c.applyOp op s = (Except.ok (), s, []) := by
      cases op with
      | opIndex id doc => simp [ElasticClient.applyOp,
          ElasticClient.index_document_apply, hd]
      | opDelete id safe => simp [ElasticClient.applyOp,
          ElasticClient.delete_document_apply, hd]
    simp [ElasticClient.commitOps, happ, ih s]

/-- C2: with `disable_indexing` set, no index or delete call reaches the
engine and the engine state is unchanged — for the raw document primitives,
for their transactional deferral (including commit of any queued
operations), for any number of objects submitted through `index_objects`,
and for `delete_object`. -/
theorem C2_disable_indexing (c : ElasticClient) (id : JSON) (doc : Doc)
    (safe : Bool) (t : Txn) (s : ESState) (objs : List Doc) (q : List Op)
    (hd : c.disable_indexing = true) :
    c.index_document_apply id doc s = (Except.ok (), s, []) ∧
    c.delete_document_apply id safe s = (Except.ok (), s, []) ∧
    (c.index_document id doc t s).2.2 = (s, []) ∧
    (c.delete_document id safe t s).2.2 = (s, []) ∧
    c.commitOps q s = (Except.ok (), s, []) ∧
    (c.index_objects objs t s).2.2.1 = s ∧
    (c.index_objects objs t s).2.2.2 = [] ∧
    (c.delete_object doc safe t s).2.2.1 = s ∧
    (c.delete_object doc safe t s).2.2.2 = [] := by
  have hia : c.index_document_apply id doc s = (Except.ok (), s, []) := by
    simp [ElasticClient.index_document_apply, hd]
  have hda : c.delete_document_apply id safe s = (Except.ok (), s, []) := by
    simp [ElasticClient.delete_document_apply, hd]
  have hdel : (c.delete_document id safe t s).2.2 = (s, []) := by
    unfold ElasticClient.delete_document
    by_cases hu : c.use_transaction
    · simp [hu]
    · simp [hu, ElasticClient.delete_document_apply, hd]
  refine ⟨hia, hda, ?_, hdel, commitOps_disabled c hd q s,
      (index_objects_disabled c hd s objs t).1,
      (index_objects_disabled c hd s objs t).2, ?_, ?_⟩
  · unfold ElasticClient.index_document
    by_cases hu : c.use_transaction
    · simp [hu]
    · simp [hu, ElasticClient.index_document_apply, hd]
  · unfold ElasticClient.delete_object
    cases hg : alGet doc "_id" with
    | none => simp
    | some did =>
      unfold ElasticClient.delete_document
      by_cases hu : c.use_transaction
      · simp [hu]
      · simp [hu, ElasticClient.delete_document_apply, hd]
  · unfold ElasticClient.delete_object
    cases hg : alGet doc "_id" with
    | none => simp
    | some did =>
      unfold ElasticClient.delete_document
      by_cases hu : c.use_transaction
      · simp [hu]
      · simp [hu, ElasticClient.delete_document_apply, hd]

/-- Witness for C2 with a concrete disabled client, documents and queue. -/
theorem C2_disable_indexing_witness :
    cDI.index_document_apply id1 doc1 sFresh = (Except.ok (), sFresh, []) ∧
    cDI.delete_document_apply id1 true sFresh = (Except.ok (), sFresh, []) ∧
    (cDI.index_document id1 doc1 t0 sFresh).2.2 = (sFresh, []) ∧
    (cDI.delete_document id1 true t0 sFresh).2.2 = (sFresh, []) ∧
    cDI.commitOps q1fix sFresh = (Except.ok (), sFresh, []) ∧
    (cDI.index_objects [docP, docNP] t0 sFresh).2.2.1 = sFresh ∧
    (cDI.index_objects [docP, docNP] t0 sFresh).2.2.2 = [] ∧
    (cDI.delete_object docP true t0 sFresh).2.2.1 = sFresh ∧
    (cDI.delete_object docP true t0 sFresh).2.2.2 = [] :=
  C2_disable_indexing cDI id1 doc1 true t0 sFresh [docP, docNP] q1fix rfl

/-- C8 counterexample: `get` called with an explicit pair does not fetch
from the index named by the pair's first component — on a client configured
with index `idx`, a pair naming `other` still produces an engine `get`
against `idx`.  The pair's first component (a document type in the source,
not an index name) is discarded. -/
theorem C8_get_counterexample :
    (cNT.get (GetArg.fromPair (JSON.str "other") (JSON.str "d1")) sOneDoc).2.2
      = [ESCall.getDoc "idx" (JSON.str "d1")] ∧
    ESCall.getDoc "idx" (JSON.str "d1") ≠
      ESCall.getDoc "other" (JSON.str "d1") := by
  exact ⟨rfl, by decide⟩

/-- C8 (amended): `get` is a read-only fetch that, given either an object
carrying an id or an explicit (documentType, id) pair whose first component
is ignored, retrieves the stored document from the client's configured
index, returns the stored source, leaves the engine state unchanged, and is
never deferred through the transactional machinery. -/
theorem C8_get_amended (c : ElasticClient) (first objId : JSON) (d : Doc)
    (s : ESState) (hdoc : alGet s.docs objId = some d) :
    c.get (GetArg.fromPair first objId) s =
      (Except.ok d, s, [ESCall.getDoc c.index objId]) ∧
    c.get (GetArg.fromObj objId) s =
      (Except.ok d, s, [ESCall.getDoc c.index objId]) := by
  unfold ElasticClient.get
  simp [hdoc]

/-- Witness for the amended C8 at a concrete state holding document `d1`. -/
theorem C8_get_amended_witness :
    cNT.get (GetArg.fromPair (JSON.str "other") (JSON.str "d1")) sOneDoc =
      (Except.ok [("title", JSON.str "a")], sOneDoc,
       [ESCall.getDoc "idx" (JSON.str "d1")]) ∧
    cNT.get (GetArg.fromObj (JSON.str "d1")) sOneDoc =
      (Except.ok [("title", JSON.str "a")], sOneDoc,
       [ESCall.getDoc "idx" (JSON.str "d1")]) :=
  C8_get_amended cNT (JSON.str "other") (JSON.str "d1")
    [("title", JSON.str "a")] sOneDoc rfl

/-- C9: indexing an object strips the reserved `_id` key from the body and
uses its value as the document id, strips a `__pipeline__` marker and routes
the call through that pipeline, and the transmitted body contains neither
reserved key. -/
theorem C9_reserved_keys (c : ElasticClient) (doc doc2 : Doc)
    (idv idv2 p : JSON) (t : Txn) (s : ESState)
    (hd : c.disable_indexing = false)
    (ht : c.use_transaction = false)
    (hid : alGet doc "_id" = some idv)
    (hp : alGet doc "__pipeline__" = some p)
    (hid2 : alGet doc2 "_id" = some idv2)
    (hp2 : alGet doc2 "__pipeline__" = none) :
    c.index_object doc t s =
      (Except.ok (), t,
       { s with docs :=
           alSet s.docs idv (alRemove (alRemove doc "_id") "__pipeline__") },
       [ESCall.indexDoc c.index idv
          (alRemove (alRemove doc "_id") "__pipeline__") (some p)]) ∧
    alGet (alRemove (alRemove doc "_id") "__pipeline__") "_id" = none ∧
    alGet (alRemove (alRemove doc "_id") "__pipeline__") "__pipeline__"
      = none ∧
    c.index_object doc2 t s =
      (Except.ok (), t, { s with docs := alSet s.docs idv2 (alRemove doc2 "_id") },
       [ESCall.indexDoc c.index idv2 (alRemove doc2 "_id") none]) ∧
    alGet (alRemove doc2 "_id") "_id" = none ∧
    alGet (alRemove doc2 "_id") "__pipeline__" = none := by
  have hne : ("__pipeline__" : String) ≠ "_id" := by decide
  have hbody : alGet (alRemove doc "_id") "__pipeline__"
      = alGet doc "__pipeline__" := alGet_alRemove_ne doc "__pipeline__" "_id" hne
  have hbody2 : alGet (alRemove doc2 "_id") "__pipeline__"
      = alGet doc2 "__pipeline__" := alGet_alRemove_ne doc2 "__pipeline__" "_id" hne
  refine ⟨?_, ?_, ?_, ?_, ?_, ?_⟩
  · unfold ElasticClient.index_object ElasticClient.index_document
      ElasticClient.index_document_apply
    simp [hid, ht, hd, hbody, hp]
  · exact alGet_alRemove_ne (alRemove doc "_id") "_id" "__pipeline__"
      (by decide) |>.trans (alGet_alRemove_self doc "_id")
  · exact alGet_alRemove_self (alRemove doc "_id") "__pipeline__"
  · unfold ElasticClient.index_object ElasticClient.index_document
      ElasticClient.index_document_apply
    simp [hid2, ht, hd, hbody2, hp2]
  · exact alGet_alRemove_self doc2 "_id"
  · exact hbody2.trans hp2

/-- Witness for C9 on concrete documents with and without a pipeline
marker. -/
theorem C9_reserved_keys_witness :
    cNT.index_object docP t0 sFresh =
      (Except.ok (), t0,
       { sFresh with docs :=
           (alSet sFresh.docs (JSON.str "d9")
             (alRemove (alRemove docP "_id") "__pipeline__")) },
       [ESCall.indexDoc "idx" (JSON.str "d9")
          (alRemove (alRemove docP "_id") "__pipeline__")
          (some (JSON.str "pl"))]) ∧
    alGet (alRemove (alRemove docP "_id") "__pipeline__") "_id" = none ∧
    alGet (alRemove (alRemove docP "_id") "__pipeline__") "__pipeline__"
      = none ∧
    cNT.index_object docNP t0 sFresh =
      (Except.ok (), t0,
       { sFresh with docs :=
           (alSet sFresh.docs (JSON.str "d8") (alRemove docNP "_id")) },
       [ESCall.indexDoc "idx" (JSON.str "d8") (alRemove docNP "_id") none]) ∧
    alGet (alRemove docNP "_id") "_id" = none ∧
    alGet (alRemove docNP "_id") "__pipeline__" = none :=
  C9_reserved_keys cNT docP docNP (JSON.str "d9") (JSON.str "d8")
    (JSON.str "pl") t0 sFresh rfl rfl rfl rfl rfl rfl

/-- C5: the client never silently overwrites an existing mapping — with a
non-empty current mapping and `recreate=false`, both `ensure_mapping` and
`ensure_all_mappings` perform zero put-mapping calls, and in general a
put-mapping call is only ever issued when the index has no mapping or
`recreate` is forced. -/
theorem C5_no_silent_overwrite (c : ElasticClient) (cls : ElasticClass)
    (registry : List ElasticClass) (s : ESState)
    (hm : s.mappings ≠ []) :
    c.ensure_mapping cls false s = (s, [ESCall.indicesGetMapping c.index]) ∧
    c.ensure_all_mappings registry false s
      = (s, [ESCall.indicesGetMapping c.index]) ∧
    (∀ (recreate : Bool) (s2 : ESState) (b : Mapping),
      ESCall.indicesPutMapping c.index b ∈ (c.ensure_mapping cls recreate s2).2 →
      s2.mappings = [] ∨ recreate = true) ∧
    (∀ (recreate : Bool) (s2 : ESState) (b : Mapping),
      ESCall.indicesPutMapping c.index b
          ∈ (c.ensure_all_mappings registry recreate s2).2 →
      s2.mappings = [] ∨ recreate = true) := by
  have hne : s.mappings.isEmpty = false := by
    cases hS : s.mappings with
    | nil => exact absurd hS hm
    | cons a l => rfl
  refine ⟨?_, ?_, ?_, ?_⟩
  · unfold ElasticClient.ensure_mapping
    simp [hne]
  · unfold ElasticClient.ensure_all_mappings
    simp [hne]
  · intro recreate s2 b hmem
    cases hS : s2.mappings with
    | nil => exact Or.inl rfl
    | cons a l =>
      by_cases hr : recreate
      · exact Or.inr hr
      · exfalso
        unfold ElasticClient.ensure_mapping at hmem
        rw [hS] at hmem
        simp [hr] at hmem
  · intro recreate s2 b hmem
    cases hS : s2.mappings with
    | nil => exact Or.inl rfl
    | cons a l =>
      by_cases hr : recreate
      · exact Or.inr hr
      · exfalso
        unfold ElasticClient.ensure_all_mappings at hmem
        rw [hS] at hmem
        simp [hr] at hmem

/-- Witness for C5 on a state that already carries a mapping. -/
theorem C5_no_silent_overwrite_witness :
    cNT.ensure_mapping clsA false sMapped
      = (sMapped, [ESCall.indicesGetMapping "idx"]) ∧
    cNT.ensure_all_mappings [clsA, clsB, clsC] false sMapped
      = (sMapped, [ESCall.indicesGetMapping "idx"]) ∧
    (∀ (recreate : Bool) (s2 : ESState) (b : Mapping),
      ESCall.indicesPutMapping "idx" b
          ∈ (cNT.ensure_mapping clsA recreate s2).2 →
      s2.mappings = [] ∨ recreate = true) ∧
    (∀ (recreate : Bool) (s2 : ESState) (b : Mapping),
      ESCall.indicesPutMapping "idx" b
          ∈ (cNT.ensure_all_mappings [clsA, clsB, clsC] recreate s2).2 →
      s2.mappings = [] ∨ recreate = true) :=
  C5_no_silent_overwrite cNT clsA [clsA, clsB, clsC] sMapped
    (by simp [sMapped])

theorem commitOps_append (c : ElasticClient) (q2 : List Op) :
    ∀ (q1 : List Op) (s s1 : ESState) (tr1 : List ESCall),
      c.commitOps q1 s = (Except.ok (), s1, tr1) →
      c.commitOps (q1 ++ q2) s =
        ((c.commitOps q2 s1).1, (c.commitOps q2 s1).2.1,
         tr1 ++ (c.commitOps q2 s1).2.2) := by
  intro q1
  induction q1 with
  | nil =>
    intro s s1 tr1 h
    have h2 : (Except.ok (), s, ([] : List ESCall))
        = ((Except.ok () : Except ESError Unit), s1, tr1) := h
    simp only [Prod.mk.injEq] at h2
    obtain ⟨-, hs, htr⟩ := h2
    subst hs
    subst htr
    simp
  | cons op q ih =>
    intro s s1 tr1 h
    rcases happ : c.applyOp op s with ⟨r, sa, tra⟩
    cases r with
    | error e =>
      rw [ElasticClient.commitOps, happ] at h
      simp at h
    | ok u =>
      cases u
      rw [ElasticClient.commitOps, happ] at h
      have h4 : ((c.commitOps q sa).1, (c.commitOps q sa).2.1,
          tra ++ (c.commitOps q sa).2.2)
          = ((Except.ok () : Except ESError Unit), s1, tr1) := h
      rcases hrec : c.commitOps q sa with ⟨r2, s2, tr2⟩
      rw [hrec] at h4
      simp only [Prod.mk.injEq] at h4
      obtain ⟨hr2, hs2, htr⟩ := h4
      have hq : c.commitOps q sa = (Except.ok (), s1, tr2) := by
        rw [hrec, hr2, hs2]
      have hih := ih sa s1 tr2 hq
      show c.commitOps (op :: (q ++ q2)) s = _
      rw [ElasticClient.commitOps, happ]
      show ((c.commitOps (q ++ q2) sa).1, (c.commitOps (q ++ q2) sa).2.1,
          tra ++ (c.commitOps (q ++ q2) sa).2.2) = _
      rw [hih, ← htr]
      simp [List.append_assoc]

/-- C1: the transactional contract — with `use_transaction` set, an index or
delete operation is only registered with the active unit of work (nothing
reaches the engine, the engine state is unchanged); aborting discards the
queue with no engine call; committing replays the registered queue in
registration order, each operation applied exactly once; with
`use_transaction` unset the operation applies immediately and synchronously
with no deferral. -/
theorem C1_transactional_contract (cT cF : ElasticClient) (id id2 : JSON)
    (doc : Doc) (safe : Bool) (t : Txn) (op : Op) (q1 q2 : List Op)
    (s s1 : ESState) (tr1 : List ESCall)
    (hT : cT.use_transaction = true) (hF : cF.use_transaction = false)
    (hq : cT.commitOps q1 s = (Except.ok (), s1, tr1)) :
    cT.index_document id doc t s =
      (Except.ok (), { queue := t.queue ++ [Op.opIndex id doc] }, s, []) ∧
    cT.delete_document id2 safe t s =
      (Except.ok (), { queue := t.queue ++ [Op.opDelete id2 safe] }, s, []) ∧
    ElasticClient.abort t s = (s, []) ∧
    cT.commitOps (q1 ++ q2) s =
      ((cT.commitOps q2 s1).1, (cT.commitOps q2 s1).2.1,
       tr1 ++ (cT.commitOps q2 s1).2.2) ∧
    cT.commitOps [op] s = cT.applyOp op s ∧
    cT.commit { queue := q1 } s = (Except.ok (), s1, tr1) ∧
    cF.index_document id doc t s =
      ((cF.index_document_apply id doc s).1, t,
       (cF.index_document_apply id doc s).2.1,
       (cF.index_document_apply id doc s).2.2) ∧
    cF.delete_document id2 safe t s =
      ((cF.delete_document_apply id2 safe s).1, t,
       (cF.delete_document_apply id2 safe s).2.1,
       (cF.delete_document_apply id2 safe s).2.2) := by
  refine ⟨?_, ?_, rfl, commitOps_append cT q2 q1 s s1 tr1 hq, ?_, hq, ?_, ?_⟩
  · unfold ElasticClient.index_document
    simp [hT, Txn.register]
  · unfold ElasticClient.delete_document
    simp [hT, Txn.register]
  · rcases happ : cT.applyOp op s with ⟨r, sa, tra⟩
    cases r with
    | error e => rw [ElasticClient.commitOps, happ]
    | ok u =>
      rw [ElasticClient.commitOps, happ]
      simp [ElasticClient.commitOps]
  · unfold ElasticClient.index_document
    simp [hF]
  · unfold ElasticClient.delete_document
    simp [hF]

/-- Witness for C1: a concrete transactional and non-transactional client,
one registered queue committed against a fresh index. -/
theorem C1_transactional_contract_witness :
    cTX.index_document id1 doc1 t0 sFresh =
      (Except.ok (), { queue := t0.queue ++ [Op.opIndex id1 doc1] }, sFresh, []) ∧
    cTX.delete_document id1 true t0 sFresh =
      (Except.ok (), { queue := t0.queue ++ [Op.opDelete id1 true] }, sFresh, []) ∧
    ElasticClient.abort t0 sFresh = (sFresh, []) ∧
    cTX.commitOps (q1fix ++ q2fix) sFresh =
      ((cTX.commitOps q2fix s1fix).1, (cTX.commitOps q2fix s1fix).2.1,
       tr1fix ++ (cTX.commitOps q2fix s1fix).2.2) ∧
    cTX.commitOps [Op.opIndex id1 doc1] sFresh
      = cTX.applyOp (Op.opIndex id1 doc1) sFresh ∧
    cTX.commit { queue := q1fix } sFresh = (Except.ok (), s1fix, tr1fix) ∧
    cNT.index_document id1 doc1 t0 sFresh =
      ((cNT.index_document_apply id1 doc1 sFresh).1, t0,
       (cNT.index_document_apply id1 doc1 sFresh).2.1,
       (cNT.index_document_apply id1 doc1 sFresh).2.2) ∧
    cNT.delete_document id1 true t0 sFresh =
      ((cNT.delete_document_apply id1 true sFresh).1, t0,
       (cNT.delete_document_apply id1 true sFresh).2.1,
       (cNT.delete_document_apply id1 true sFresh).2.2) :=
  C1_transactional_contract cTX cNT id1 id1 doc1 true t0
    (Op.opIndex id1 doc1) q1fix q2fix sFresh s1fix tr1fix rfl rfl rfl

theorem alGet_foldl_contrib_none (k : String) :
    ∀ (post : List ElasticClass) (acc : Mapping),
      (∀ cls ∈ post, alGetLast (clsContrib cls) k = none) →
      alGet (post.foldl (fun acc cls => alUpdate acc (clsContrib cls)) acc) k
        = alGet acc k := by
  intro post
  induction post with
  | nil => intro acc h; rfl
  | cons cls rest ih =>
    intro acc h
    have hcls := h cls (List.mem_cons_self cls rest)
    have hrest : ∀ c2 ∈ rest, alGetLast (clsContrib c2) k = none :=
      fun c2 hc2 => h c2 (List.mem_cons_of_mem cls hc2)
    rw [List.foldl_cons, ih _ hrest, alGet_alUpdate]
    simp [hcls]

/-- C6: `ensure_all_mappings` pushes the merge of every indexable class's
mapping with its registered extensions; extensions override the class's own
keys, and contributions merged later override earlier ones on key conflict —
in particular a key set by an earlier class and overridden by a later
class's extension ends up with the extension's value. -/
theorem C6_mapping_merge (c : ElasticClient) (pre post : List ElasticClass)
    (B cls2 : ElasticClass) (es : List Mapping) (e : Mapping)
    (k k2 : String) (v v2 : JSON) (s : ESState)
    (hs : s.mappings = [])
    (hB : alGetLast (clsContrib B) k = some v)
    (hpost : ∀ cls ∈ post, alGetLast (clsContrib cls) k = none)
    (hcls2 : cls2.indexable = true) (hm2 : cls2.mapping.isEmpty = false)
    (hext : cls2.extensions = es ++ [e]) (he : alGetLast e k2 = some v2) :
    c.ensure_all_mappings (pre ++ B :: post) false s =
      ({ s with mappings :=
           (alUpdate s.mappings (merged_mapping (pre ++ B :: post))) },
       [ESCall.indicesGetMapping c.index,
        ESCall.indicesPutMapping c.index (merged_mapping (pre ++ B :: post))]) ∧
    alGet (merged_mapping (pre ++ B :: post)) k = some v ∧
    alGet (clsContrib cls2) k2 = some v2 := by
  refine ⟨?_, ?_, ?_⟩
  · unfold ElasticClient.ensure_all_mappings
    simp [hs]
  · rw [merged_mapping_eq_foldl, List.foldl_append, List.foldl_cons,
      alGet_foldl_contrib_none k post _ hpost, alGet_alUpdate]
    simp [hB]
  · have hcc : clsContrib cls2 = alUpdate (es.foldl alUpdate cls2.mapping) e := by
      unfold clsContrib
      simp [hcls2, hm2, hext, List.foldl_append]
    rw [hcc, alGet_alUpdate]
    simp [he]

/-- Witness for C6: three concrete classes where class B's extension
overrides the `status` field set by class A. -/
theorem C6_mapping_merge_witness :
    cNT.ensure_all_mappings [clsA, clsB, clsC] false sFresh =
      ({ sFresh with mappings :=
           (alUpdate sFresh.mappings (merged_mapping [clsA, clsB, clsC])) },
       [ESCall.indicesGetMapping "idx",
        ESCall.indicesPutMapping "idx" (merged_mapping [clsA, clsB, clsC])]) ∧
    alGet (merged_mapping [clsA, clsB, clsC]) "status"
      = some (JSON.str "text") ∧
    alGet (clsContrib clsB) "status" = some (JSON.str "text") :=
  C6_mapping_merge cNT [clsA] [clsC] clsB clsB []
    [("status", JSON.str "text")] "status" "status"
    (JSON.str "text") (JSON.str "text") sFresh rfl rfl
    (by intro cls hc; rw [List.mem_singleton] at hc; subst hc; rfl)
    rfl rfl rfl rfl
